import Mathlib

/-!
Shallow embedding of the TuneScape audio engine (`AudioEngine`, src part_000)
and proofs about its analysis, rendering and encoding routines.

Numbers are modelled by `ℚ`.  JS `number` literals such as `0.1`, `0.15` or
`0.06` denote the nearest binary double; they are modelled by the exact
rationals they stand for in the source text.  Where such a literal feeds a
`Math.floor` the float/rational difference is noted at the definition.
-/

set_option maxHeartbeats 1000000

namespace TuneScape

/-- JS `Math.round`: round half toward positive infinity. -/
def jsRound (q : ℚ) : ℤ := ⌊q + 1/2⌋

/-- Source `Math.round(x * 10) / 10`: round to one decimal, as used throughout the
tempo pipeline. -/
def round1 (q : ℚ) : ℚ := (jsRound (q * 10) : ℚ) / 10

/-! ## Tempo aggregation (src 114–133)

`rawResults.sort((a, b) => a - b)` is a numeric ascending comparison sort; its
output is determined by the total order on `ℚ`, so it is modelled by insertion
sort. -/

/-- The sorted candidate list (src 114). -/
def sortedResults (l : List ℚ) : List ℚ := List.insertionSort (· ≤ ·) l

/-- Source `rawResults[Math.floor(rawResults.length * 0.25)]` (src 115).  `n * 0.25`
is exact in binary floating point, so the index is `n / 4`. -/
def q1 (l : List ℚ) : ℚ := (sortedResults l).getD (l.length / 4) 0

/-- Source `rawResults[Math.floor(rawResults.length * 0.75)]` (src 116); the index is
`3 * n / 4` (`n * 0.75` is exact in binary floating point). -/
def q3 (l : List ℚ) : ℚ := (sortedResults l).getD (3 * l.length / 4) 0

/-- Source `iqr = q3 - q1` (src 117). -/
def iqr (l : List ℚ) : ℚ := q3 l - q1 l

/-- Tukey-fence filtering of the sorted candidates (src 118); when the IQR is
zero the filter is skipped.  (`rawResults` was sorted in place on src 114, so
the filter runs over the sorted list.) -/
def filteredPasses (l : List ℚ) : List ℚ :=
  if iqr l = 0 then sortedResults l
  else (sortedResults l).filter fun t =>
    decide (q1 l - 3/2 * iqr l ≤ t) && decide (t ≤ q3 l + 3/2 * iqr l)

/-- Source `filteredPasses[Math.floor(filteredPasses.length / 2)]` (src 120). -/
def medianBpm (l : List ℚ) : ℚ :=
  (filteredPasses l).getD ((filteredPasses l).length / 2) 0

/-! ## Octave correction (src 128–130)

Two sequential `while` loops.  They are modelled twice: as total functions by
well-founded recursion (used by the aggregator model), and as fuel-indexed
iteration (used to state that the source loops terminate). -/

/-- Source `while (corrected > 200) corrected /= 2` (src 129), as a total function. -/
def halveLoop (x : ℚ) : ℚ :=
  if h : 200 < x then halveLoop (x / 2) else x
termination_by (⌈x⌉).toNat
decreasing_by
  have hx : x ≤ (⌈x⌉ : ℚ) := Int.le_ceil x
  have h200 : (200 : ℤ) < ⌈x⌉ := by
    have := Int.lt_ceil.mpr (show ((200 : ℤ) : ℚ) < x by exact_mod_cast h)
    exact this
  have hle : ⌈x / 2⌉ ≤ ⌈x⌉ - 1 := by
    apply Int.ceil_le.mpr
    push_cast
    linarith
  omega

/-- Source `while (corrected < 60) corrected *= 2` (src 130), as a total function.
The source loop never exits when the value is `≤ 0` (which cannot occur: every
accepted raw candidate is `> 40`); the `0 < x` part of the guard restricts the
model to the loop's termination domain and leaves nonpositive values fixed. -/
def doubleLoop (x : ℚ) : ℚ :=
  if h : 0 < x ∧ x < 60 then doubleLoop (x * 2) else x
termination_by (⌈60 / x⌉).toNat
decreasing_by
  obtain ⟨hx, hx60⟩ := h
  have hc : (1 : ℚ) < 60 / x := (one_lt_div hx).mpr hx60
  have hm : (1 : ℤ) < ⌈60 / x⌉ := Int.lt_ceil.mpr (by exact_mod_cast hc)
  have hcm : 60 / x ≤ (⌈60 / x⌉ : ℚ) := Int.le_ceil _
  have hrw : 60 / (x * 2) = 60 / x / 2 := by
    rw [div_mul_eq_div_div]
  have hle : ⌈60 / (x * 2)⌉ ≤ ⌈60 / x⌉ - 1 := by
    rw [hrw]
    apply Int.ceil_le.mpr
    push_cast
    have : (2 : ℚ) ≤ (⌈60 / x⌉ : ℚ) := by exact_mod_cast hm
    linarith
  omega

/-- Octave correction: halve while above 200, then double while below 60
(src 128–130). -/
def octaveCorrect (x : ℚ) : ℚ := doubleLoop (halveLoop x)

/-- Fuel-indexed run of the halving loop of src 129; `none` means the fuel ran
out before the loop exited. -/
def halveIter : ℕ → ℚ → Option ℚ
  | 0, _ => none
  | n + 1, x => if 200 < x then halveIter n (x / 2) else some x

/-- Fuel-indexed run of the doubling loop of src 130. -/
def doubleIter : ℕ → ℚ → Option ℚ
  | 0, _ => none
  | n + 1, x => if x < 60 then doubleIter n (x * 2) else some x

/-- The two loops of src 128–130 in sequence under a common fuel bound. -/
def octaveIter (n : ℕ) (x : ℚ) : Option ℚ := (halveIter n x).bind (doubleIter n)

/-! ## Fast-mode tempo estimation: peak clustering (src 190–211) -/

/-- One block's peak amplitude (src 195–199): the maximum of `|data[i + j]|`
over `j = 0, step, 2·step, …` while `j < hopSize ∧ i + j < data.length`,
starting from the accumulator 0.  Requires `step ≥ 1` (the source guarantees it
via `Math.max(1, …)`). -/
def blockMax (data : List ℚ) (i hopSize step : ℕ) : ℚ :=
  ((List.range ((min hopSize (data.length - i) + step - 1) / step)).map
    fun k => |data.getD (i + k * step) 0|).foldl max 0

/-- Peak times (src 192–201): block start times `i / sampleRate` (seconds) of
the blocks `i = 0, hopSize, 2·hopSize, …` whose `blockMax` exceeds the 0.15
threshold.  The float literal `0.15` is a hair below `3/20`; no sample value in
any claim sits between the two.  When `hopSize = 0` the source loop never
advances (it would spin forever); the model then yields no peaks, and every
claim concerns `hopSize ≥ 1`. -/
def peakTimes (data : List ℚ) (sampleRate : ℕ) (hopSize step : ℕ) : List ℚ :=
  ((((List.range ((data.length + hopSize - 1) / hopSize)).map (· * hopSize)).filter
    fun i => decide (3/20 < blockMax data i hopSize step)).map
    fun i => (i : ℚ) / sampleRate)

/-- Consecutive inter-peak differences kept when strictly inside
`(0.2, 2.0)` seconds (src 203–207). -/
def keptDiffs (peaks : List ℚ) : List ℚ :=
  ((peaks.zip peaks.tail).map fun p => p.2 - p.1).filter
    fun d => decide (1/5 < d) && decide (d < 2)

/-- The element `diffs.sort()[Math.floor(diffs.length / 2)]` picks (src 209):
index `⌊n/2⌋` of the sorted list — the upper median for even counts.  The
source's comparator-less `sort()` is lexicographic on the decimal string forms;
on values in `(0.2, 2.0)` (single-digit integer part, no exponent rendering)
that order coincides with the numeric order modelled here. -/
def upperMedian (l : List ℚ) : ℚ := (sortedResults l).getD (l.length / 2) 0

/-- Modelled from the claim's words: the lower median — for an even count the
smaller of the two middle values of the numerically sorted list, i.e. the
element at index `⌊(n−1)/2⌋`. -/
def lowerMedian (l : List ℚ) : ℚ := (sortedResults l).getD ((l.length - 1) / 2) 0

/-- Source `detectBpmByPeakClustering` (src 190–211).  `hopSize = ⌊sampleRate·hopSec⌋`
(src 191; the float product rounds to the same floor for every hop size and
sample rate in play), `step = max 1 ⌊data.length / 3000⌋` (src 193). -/
def detectBpmByPeakClustering (data : List ℚ) (sampleRate : ℕ) (hopSec : ℚ) : ℚ :=
  let hopSize := (⌊(sampleRate : ℚ) * hopSec⌋).toNat
  let step := max 1 (data.length / 3000)
  let peaks := peakTimes data sampleRate hopSize step
  if peaks.length < 5 then 0
  else
    let diffs := keptDiffs peaks
    if diffs.length = 0 then 0
    else 60 / upperMedian diffs

/-! ## Accurate-mode tempo estimation: autocorrelation (src 154–188) -/

/-- Energy envelope at an effective 100 Hz (src 157–169): block energies over
blocks of `blockSpan = ⌊sampleRate/100⌋` samples.  The source fills indices
`i < envLength − 1` and leaves the final entry 0.  For `sampleRate < 100` the
source throws while allocating an infinite-length array (the model's
`envLength` is then 0); no claim reaches that case. -/
def energyEnvelope (data : List ℚ) (blockSpan envLength : ℕ) : List ℚ :=
  (List.range envLength).map fun i =>
    if i < envLength - 1 then
      ((List.range blockSpan).map fun j =>
        data.getD (i * blockSpan + j) 0 * data.getD (i * blockSpan + j) 0).sum
    else 0

/-- First difference clipped at 0 (src 171–173).  The in-place loop walks the
indices downward, so each update reads the original previous entry: entry 0 is
kept, entry `i ≥ 1` becomes `max 0 (env[i] − env[i−1])`. -/
def onsetEnvelope (env : List ℚ) : List ℚ :=
  env.mapIdx fun i v => if i = 0 then v else max 0 (v - env.getD (i - 1) 0)

/-- Autocorrelation score at one lag (src 178–181). -/
def autocorrAt (env : List ℚ) (lag : ℕ) : ℚ :=
  ((List.range (env.length - lag)).map fun i => env.getD i 0 * env.getD (i + lag) 0).sum

/-- Best-lag search over lags 30..100 (src 175–186): strict improvement over a
starting score 0 with starting lag 60; ties keep the earlier lag. -/
def bestLag (env : List ℚ) : ℕ :=
  (((List.range 71).map (· + 30)).foldl
    (fun acc lag => if acc.2 < autocorrAt env lag then (lag, autocorrAt env lag) else acc)
    ((60 : ℕ), (0 : ℚ))).1

/-- Source `detectBpmByAutocorrelation` (src 154–188): tempo `= 60·100 / bestLag`. -/
def detectBpmByAutocorrelation (data : List ℚ) (sampleRate : ℕ) : ℚ :=
  let blockSpan := sampleRate / 100
  let envLength := if blockSpan = 0 then 0 else data.length / blockSpan
  let env := onsetEnvelope (energyEnvelope data blockSpan envLength)
  (60 * 100 : ℚ) / bestLag env

/-! ## Boundary detection (src 213–233) -/

/-- Chunk loudness values (src 216–223).  The source stores the RMS
`Math.sqrt(sum / (end − i))` of each 100 ms chunk; the square root is strictly
monotone on nonnegatives and the values are only ever compared with each other
(percentile pick, threshold scans), so the model keeps the mean squares.
`chunkSize = 0` (sampleRate < 10) makes the source loop forever; the model then
produces no chunks. -/
def chunkMeanSquares (data : List ℚ) (chunkSize : ℕ) : List ℚ :=
  (List.range ((data.length + chunkSize - 1) / chunkSize)).map fun c =>
    let start := c * chunkSize
    let stop := min (start + chunkSize) data.length
    ((List.range (stop - start)).map fun j =>
      data.getD (start + j) 0 * data.getD (start + j) 0).sum / ((stop - start : ℕ) : ℚ)

/-- The result record of `detectBoundaries` (types.ts 27–31). -/
structure LoopBoundariesM where
  introEnd : ℚ
  outroStart : ℚ
  detected : Bool
deriving DecidableEq

/-- The forward scan of src 227 from position `i`: index of the first value
strictly above the threshold, `−1` (the sentinel `iEnd` keeps) when none is. -/
def firstAboveFrom (thr : ℚ) : List ℚ → ℕ → ℤ
  | [], _ => -1
  | v :: rest, i => if thr < v then (i : ℤ) else firstAboveFrom thr rest (i + 1)

/-- The forward scan of src 227. -/
def firstAbove (vals : List ℚ) (thr : ℚ) : ℤ := firstAboveFrom thr vals 0

/-- The backward scan of src 228: index of the last value strictly above the
threshold, `−1` when none is. -/
def lastAbove (vals : List ℚ) (thr : ℚ) : ℤ :=
  match vals with
  | [] => -1
  | v :: rest =>
    let r := lastAbove rest thr
    if r = -1 then (if thr < v then 0 else -1) else r + 1

/-- Source `detectBoundaries` (src 213–233).  `chunkSize = ⌊sampleRate·0.1⌋ =
sampleRate / 10`, the 60th-percentile index `Math.floor(n·0.6)` evaluates to
`3n/5` for every list length (the float product never crosses the integer
boundary), `iEnd·0.1` is `iEnd/10`, and `buffer.duration = length /
sampleRate`. -/
def detectBoundaries (sampleRate : ℕ) (data : List ℚ) : LoopBoundariesM :=
  let duration : ℚ := (data.length : ℚ) / sampleRate
  let chunkSize := sampleRate / 10
  let ms := chunkMeanSquares data chunkSize
  let sorted := sortedResults ms
  let threshold := sorted.getD (3 * sorted.length / 5) 0
  let iEnd := firstAbove ms threshold
  let oStart := lastAbove ms threshold
  let introEnd := min duration ((iEnd : ℚ) / 10 + 10)
  let outroStart := max 0 ((oStart : ℚ) / 10 - 10)
  if introEnd < outroStart ∧ 0 < introEnd ∧ outroStart < duration then
    ⟨introEnd, outroStart, true⟩
  else
    ⟨0, duration, false⟩

/-! ## Frequency analysis (src 33–77)

`extractFrequency` matches the file name against `/(\d+[._]?\d*)\s*hz/i` and
returns `parseFloat` of the captured group with `_` replaced by `.`.  The
pattern pieces cannot trade characters (digits are not separators, spaces or
`h`/`z`), so a direct greedy reading of the pattern — separator branch first —
is a complete match procedure. -/

/-- Source `\d` of the pattern (src 34). -/
def isDigitChar (c : Char) : Bool := c.isDigit

/-- Source `[._]` of the pattern. -/
def isSepChar (c : Char) : Bool := c = '.' || c = '_'

/-- Source `\s` of the pattern; ASCII whitespace suffices for the model. -/
def isSpaceChar (c : Char) : Bool := c = ' ' || c = '\t' || c = '\n' || c = '\r'

/-- The trailing case-insensitive literal `hz`. -/
def isHzAt (cs : List Char) : Bool :=
  match cs with
  | h :: z :: _ => (h = 'h' || h = 'H') && (z = 'z' || z = 'Z')
  | _ => false

/-- Match `\d+[._]?\d*\s*hz` anchored at the start of `cs`, returning the
captured group as integer digits, a separator flag, and fraction digits. -/
def matchAt (cs : List Char) : Option (List Char × Bool × List Char) :=
  let d1 := cs.takeWhile isDigitChar
  let rest := cs.dropWhile isDigitChar
  if d1.isEmpty then none
  else
    match rest with
    | c :: rest2 =>
      if isSepChar c then
        let d2 := rest2.takeWhile isDigitChar
        let rest3 := rest2.dropWhile isDigitChar
        if isHzAt (rest3.dropWhile isSpaceChar) then some (d1, true, d2)
        else if isHzAt (rest.dropWhile isSpaceChar) then some (d1, false, [])
        else none
      else if isHzAt (rest.dropWhile isSpaceChar) then some (d1, false, [])
      else none
    | [] => none

/-- Source `name.match(...)`: scan start positions left to right, first match wins. -/
def scanMatch : List Char → Option (List Char × Bool × List Char)
  | [] => none
  | c :: cs =>
    match matchAt (c :: cs) with
    | some m => some m
    | none => scanMatch cs

/-- Numeric value of a digit run. -/
def digitsToNat (ds : List Char) : ℕ :=
  ds.foldl (fun a c => 10 * a + (c.toNat - '0'.toNat)) 0

/-- Source `parseFloat(match[1].replace('_', '.'))` (src 36): the exact rational value
of the decimal literal (the double rounding of `parseFloat` is far too small to
affect any comparison in the claims). -/
def parsedValue (d1 d2 : List Char) : ℚ :=
  (digitsToNat d1 : ℚ) + (digitsToNat d2 : ℚ) / (10 : ℚ) ^ d2.length

/-- Source `extractFrequency` (src 33–39). -/
def extractFrequency (name : String) : Option ℚ :=
  match scanMatch name.toList with
  | some (d1, _, d2) => some (parsedValue d1 d2)
  | none => none

/-- The bin-argmax scan of src 65–73 over bins `1 ≤ i < upperLimit`.  `maxVal`
starts at `-Infinity`, modelled by `none` (the host analyser's dB data can
itself contain `-Infinity`; such entries never win the strict comparison, and
the scan's outcome only feeds the `> 5` guard below). -/
def argmaxBin (freqData : List ℚ) (upperLimit : ℕ) : ℕ :=
  (((List.range upperLimit).drop 1).foldl
    (fun acc i =>
      match acc.2 with
      | none => (i, some (freqData.getD i 0))
      | some v => if v < freqData.getD i 0 then (i, some (freqData.getD i 0)) else acc)
    ((0 : ℕ), (none : Option ℚ))).1

/-- Source `detectDominantFrequency` (src 41–77).  `freqData` stands for the host
analyser's magnitude spectrum (src 41–63 obtain it from platform audio nodes);
`upperLimit = ⌊1000·2048 / sampleRate⌋` (src 67), and the result is the bin
frequency `maxIdx · sampleRate / 2048` rounded to one decimal when above 5 Hz,
otherwise `null` (src 75–76). -/
def detectDominantFrequency (sampleRate : ℕ) (freqData : List ℚ) : Option ℚ :=
  let fftSize : ℕ := 2048
  let upperLimit := 1000 * fftSize / sampleRate
  let maxIdx := argmaxBin freqData upperLimit
  let freq : ℚ := (maxIdx : ℚ) * ((sampleRate : ℚ) / (fftSize : ℚ))
  if 5 < freq then some (round1 freq) else none

/-- src 24: `extractFrequency(name) || detectDominantFrequency(buffer)`.
JS `||` falls through when the hint parses to `0` (falsy). -/
def combinedFrequency (name : String) (sampleRate : ℕ) (freqData : List ℚ) : Option ℚ :=
  match extractFrequency name with
  | some v => if v = 0 then detectDominantFrequency sampleRate freqData else some v
  | none => detectDominantFrequency sampleRate freqData

/-! ## Buffers and the aggregated analysis result -/

/-- An `AudioBuffer`: planar channels of float samples.  `numFrames` is
`buffer.length`; well-formed buffers have `channels.length =
numberOfChannels` and every channel of length `numFrames`. -/
structure AudioBufferM where
  numberOfChannels : ℕ
  sampleRate : ℕ
  numFrames : ℕ
  channels : List (List ℚ)
deriving DecidableEq

/-- Source `'fast' | 'accurate'` (types.ts 2). -/
inductive DetectionMode
  | fast
  | accurate
deriving DecidableEq

/-- Source `'high' | 'medium' | 'low'` (types.ts 16). -/
inductive Confidence
  | high
  | medium
  | low
deriving DecidableEq

/-- The `bpmInfo` record (types.ts 11–21, built at src 141–151).  The source
field `stdDev` is `Math.sqrt(variance)` rounded to two decimals; the square
root is the host float routine and the value is only ever used through the test
`stdDev ≥ 10` ⟺ `variance ≥ 100`, so the model carries the variance. -/
structure BpmInfo where
  raw : ℚ
  corrected : ℚ
  candidates : List ℚ
  variance : ℚ
  confidence : Confidence
  algorithmsUsed : List String
  allPasses : List ℚ
  filteredPasses : List ℚ
  modeUsed : DetectionMode
deriving DecidableEq

/-- Source `Array.from(new Set(xs))` (src 144): deduplicate keeping first occurrences
in order. -/
def dedupFirst (seen : List ℚ) : List ℚ → List ℚ
  | [] => []
  | a :: l => if a ∈ seen then dedupFirst seen l else a :: dedupFirst (a :: seen) l

/-- The six fast-mode hop sizes (src 99): 0.03, 0.05, 0.08, 0.1, 0.12, 0.15 s. -/
def hopSizes : List ℚ := [3/100, 1/20, 2/25, 1/10, 3/25, 3/20]

/-- Source `analyzeBpm` (src 79–152) as a pure function of the first channel, the
sample rate and the mode.  The status callbacks and the cosmetic 800 ms delay
(src 90–92) carry no data and are dropped.  Note `allPasses` is `rawResults`
after the in-place sort of src 114. -/
def analyzeBpm (data : List ℚ) (sampleRate : ℕ) (mode : DetectionMode) : BpmInfo :=
  let rawResults : List ℚ :=
    match mode with
    | .accurate =>
      let bpm := detectBpmByAutocorrelation data sampleRate
      if 40 < bpm ∧ bpm < 250 then [bpm] else []
    | .fast =>
      (hopSizes.map (detectBpmByPeakClustering data sampleRate)).filterMap fun tempo =>
        if 40 < tempo ∧ tempo < 300 then some (round1 tempo) else none
  let algorithmsUsed : List String :=
    match mode with
    | .accurate => ["Full-Track Autocorrelation"]
    | .fast => ["Peak Clustering"]
  if rawResults = [] then
    ⟨120, 120, [], 0, .low, ["Fallback"], [], [], mode⟩
  else
    let sorted := sortedResults rawResults
    let filtered := filteredPasses rawResults
    let med := medianBpm rawResults
    let denom : ℚ := if filtered.length = 0 then 1 else (filtered.length : ℚ)
    let mean := filtered.sum / denom
    let variance := (filtered.map fun b => (b - mean) ^ 2).sum / denom
    let confidence : Confidence :=
      if 100 ≤ variance ∨ (mode = .fast ∧ filtered.length < 3) then .low
      else match mode with | .accurate => .high | .fast => .medium
    let finalCorrected := round1 (octaveCorrect med)
    let candidates :=
      [round1 (finalCorrected / 2), round1 (finalCorrected * (3/2)),
        round1 (finalCorrected * 2)].filter fun c =>
          decide (40 ≤ c) && decide (c ≤ 220) && decide (2 < |c - finalCorrected|)
    ⟨round1 med, finalCorrected, dedupFirst [] candidates, variance, confidence,
      algorithmsUsed, sorted, filtered, mode⟩

/-- The analysis portion of `decodeFile` (src 12–30): the tempo pass is gated
by `duration < 600` (src 20), the frequency field is assigned unconditionally
(src 24); `duration = data.length / sampleRate`.  The derived `pulseRate` and
`divisorBpms` (src 25–28) are downstream displays of `frequency` and are
omitted. -/
structure MetadataAnalysis where
  bpmInfo : Option BpmInfo
  frequency : Option ℚ
deriving DecidableEq

/-- See `MetadataAnalysis`. -/
def decodeAnalysis (name : String) (sampleRate : ℕ) (data : List ℚ)
    (mode : DetectionMode) (freqData : List ℚ) : MetadataAnalysis :=
  { bpmInfo :=
      if (data.length : ℚ) / (sampleRate : ℚ) < 600 then
        some (analyzeBpm data sampleRate mode)
      else none
    frequency := combinedFrequency name sampleRate freqData }

/-! ## Granular time stretch (src 239–277) -/

/-- The inner grain write of src 265–272: add `input[inPos + i] · w(grainSize,
i)` into `out[outPos + i]` for `i < grainSize`, stopping at the end of the
output (indices past `out.length` are skipped, as by the source's `break`). -/
def addGrain (w : ℕ → ℕ → ℚ) (input : List ℚ) (grainSize : ℕ) (inPos : ℤ)
    (outPos : ℕ) (out : List ℚ) : List ℚ :=
  (List.range grainSize).foldl
    (fun acc i =>
      if outPos + i < acc.length then
        acc.set (outPos + i) (acc.getD (outPos + i) 0 + input.getD (inPos + i).toNat 0 * w grainSize i)
      else acc)
    out

/-- The per-channel overlap-add loop of src 259–274, fuel-indexed.  The source
advances `outPos` by `outputStride` each iteration, so for `outputStride ≥ 1`
at most `outputLength` iterations run and fuel `outputLength + 1` is exact; for
`outputStride = 0` (sampleRate < 34) the source never terminates. -/
def olaLoop (w : ℕ → ℕ → ℚ) (input : List ℚ) (rate : ℚ)
    (grainSize outputStride inputLength outputLength : ℕ) :
    ℕ → ℕ → List ℚ → List ℚ
  | 0, _, out => out
  | fuel + 1, outPos, out =>
    if outPos < outputLength then
      let inPos := ⌊(outPos : ℚ) * rate⌋
      if (inputLength : ℤ) < inPos + grainSize then out
      else
        olaLoop w input rate grainSize outputStride inputLength outputLength fuel
          (outPos + outputStride) (addGrain w input grainSize inPos outPos out)
    else out

/-- One stretched channel (src 255–275): output starts as silence of length
`outputLength`. -/
def olaChannel (w : ℕ → ℕ → ℚ) (input : List ℚ) (rate : ℚ)
    (grainSize outputStride inputLength outputLength : ℕ) : List ℚ :=
  olaLoop w input rate grainSize outputStride inputLength outputLength
    (outputLength + 1) 0 (List.replicate outputLength 0)

/-- Source `timeStretch` (src 239–277).  `w grainSize i` stands for the host cosine
window `0.5·(1 − Math.cos(2π i / (grainSize − 1)))` (src 270) — the only
transcendental in the routine; it scales sample contributions and never
influences control flow.  `grainSize = ⌊sampleRate·0.06⌋ = sampleRate·6/100`,
`outputStride = ⌊grainSize·0.5⌋ = grainSize/2`, `outputLength =
⌊inputLength/rate⌋` (negative rates make the host throw while allocating the
output buffer; `Int.toNat` clamps).  The no-op threshold literal `0.01` is the
exact rational here (the float literal differs by < 2⁻⁵⁶, irrelevant to every
comparison in play). -/
def timeStretch (w : ℕ → ℕ → ℚ) (b : AudioBufferM) (rate : ℚ) : AudioBufferM :=
  if |rate - 1| < 1/100 then b
  else
    let inputLength := b.numFrames
    let outputLength := (⌊(inputLength : ℚ) / rate⌋).toNat
    let grainSize := b.sampleRate * 6 / 100
    let outputStride := grainSize / 2
    { numberOfChannels := b.numberOfChannels
      sampleRate := b.sampleRate
      numFrames := outputLength
      channels := (List.range b.numberOfChannels).map fun ch =>
        olaChannel w (b.channels.getD ch []) rate grainSize outputStride
          inputLength outputLength }

/-! ## Foundation-track looping renderer (src 326–363)

The loop variable is the placement time `cur`, starting at 0 and advancing by
`duration − crossfade` each iteration while `cur < totalDur`.  The body builds
source/gain nodes and schedules gain ramps (src 331–358); that scheduling data
never feeds back into the loop variable, so the model records the placement
times and discards the host scheduling calls.  The discard is faithful exactly
where every scheduled time is nonnegative: the host's `setValueAtTime` /
`linearRampToValueAtTime` / `start` throw a `RangeError` on a negative time,
which would exit the loop by exception.  For `0 ≤ cf ≤ duration` and `cur`
starting at 0 all scheduled times (`cur`, `cur + cf`, `fadeOutStart =
cur + duration − cf`, segment ends) are nonnegative, so on that domain —
the one every theorem below uses — the source loop really runs as modelled;
for `cf > duration` the source instead dies on the first iteration's negative
`fadeOutStart`.  Fuel-indexed: `none` means the fuel ran out with the loop
still running. -/

/-- See the section comment; `renderLoopPlacements dur cf totalDur fuel cur`
returns the placement times the `while` loop of src 330–362 schedules from
`cur` on. -/
def renderLoopPlacements (dur cf totalDur : ℚ) : ℕ → ℚ → Option (List ℚ)
  | 0, _ => none
  | fuel + 1, cur =>
    if cur < totalDur then
      (renderLoopPlacements dur cf totalDur fuel (cur + dur - cf)).map (cur :: ·)
    else some []

/-! ## PCM encoding (src 430–463) -/

/-- Source `'mp3_high' | 'mp3_standard' | 'wav_lossless' | 'flac_lossless'`
(types.ts 3). -/
inductive ExportFormat
  | mp3_high
  | mp3_standard
  | wav_lossless
  | flac_lossless
deriving DecidableEq

/-- Source `view.setUint16(offset, d, true)`: two little-endian bytes. -/
def le16 (n : ℕ) : List ℕ := [n % 256, n / 256 % 256]

/-- Source `view.setUint32(offset, d, true)`: four little-endian bytes. -/
def le32 (n : ℕ) : List ℕ := [n % 256, n / 256 % 256, n / 2 ^ 16 % 256, n / 2 ^ 24 % 256]

/-- Truncation toward zero, as JS `DataView.setInt16` applies to a non-integer
value. -/
def truncQ (q : ℚ) : ℤ := if q < 0 then ⌈q⌉ else ⌊q⌋

/-- One sample as two little-endian PCM16 bytes (src 454–456): clamp to
`[−1, 1]`, scale by 32768 when negative and 32767 otherwise, truncate, and
store two's complement. -/
def sampleToBytes (x : ℚ) : List ℕ :=
  let s := max (-1) (min 1 x)
  let v := if s < 0 then s * 32768 else s * 32767
  let m := (truncQ v % 65536).toNat
  [m % 256, m / 256 % 256]

/-- Source `audioBufferToLossless` (src 430–463): the sequential `DataView` writes as
byte-list concatenation, then the interleaved sample loop (src 452–459), paired
with the blob media type (src 461–462).  The running `offset` reaches 40 just
before the data-size write, so `length − offset − 4 = length − 44`. -/
def audioBufferToLossless (b : AudioBufferM) (format : ExportFormat) : List ℕ × String :=
  let numOfChan := b.numberOfChannels
  let byteLength := b.numFrames * numOfChan * 2 + 44
  let header :=
    le32 0x46464952 ++ le32 (byteLength - 8) ++ le32 0x45564157 ++
    le32 0x20746d66 ++ le32 16 ++ le16 1 ++ le16 numOfChan ++
    le32 b.sampleRate ++ le32 (b.sampleRate * 2 * numOfChan) ++
    le16 (numOfChan * 2) ++ le16 16 ++ le32 0x61746164 ++
    le32 (byteLength - 40 - 4)
  let pcmData := (List.range b.numFrames).flatMap fun pos =>
    (List.range numOfChan).flatMap fun i =>
      sampleToBytes ((b.channels.getD i []).getD pos 0)
  (header ++ pcmData,
    if format = ExportFormat.flac_lossless then "audio/flac" else "audio/wav")

/-- Modelled from the spec (§4.7, §6): the canonical 44-byte RIFF/WAVE header —
`RIFF`, riff chunk size `36 + dataSize`, `WAVE`, `fmt ` of size 16 with
`audioFormat = 1`, the channel count, sample rate, byte rate, block align,
`bitsPerSample = 16`, then `data` with `dataSize = frames · channels · 2`. -/
def canonicalWavHeader (numChannels sampleRate numFrames : ℕ) : List ℕ :=
  let blockAlign := numChannels * 2
  let dataSize := numFrames * blockAlign
  le32 0x46464952 ++ le32 (36 + dataSize) ++ le32 0x45564157 ++
  le32 0x20746d66 ++ le32 16 ++ le16 1 ++ le16 numChannels ++
  le32 sampleRate ++ le32 (sampleRate * blockAlign) ++ le16 blockAlign ++
  le16 16 ++ le32 0x61746164 ++ le32 dataSize

/-- Modelled from the spec (§4.7): interleaved little-endian PCM16 samples,
frame by frame, channel by channel. -/
def interleavedPcm16 (b : AudioBufferM) : List ℕ :=
  (List.range b.numFrames).flatMap fun pos =>
    (List.range b.numberOfChannels).flatMap fun i =>
      sampleToBytes ((b.channels.getD i []).getD pos 0)

/-! # Theorems -/

/-- Claim C4: every `LoopBoundaries` value the boundary detector returns
satisfies `0 < introEnd < outroStart < duration` when `detected = true`, and
`introEnd = 0 ∧ outroStart = duration` when `detected = false`. -/
theorem boundaries_invariant (sampleRate : ℕ) (data : List ℚ) :
    ((detectBoundaries sampleRate data).detected = true →
      0 < (detectBoundaries sampleRate data).introEnd ∧
      (detectBoundaries sampleRate data).introEnd < (detectBoundaries sampleRate data).outroStart ∧
      (detectBoundaries sampleRate data).outroStart < (data.length : ℚ) / sampleRate) ∧
    ((detectBoundaries sampleRate data).detected = false →
      (detectBoundaries sampleRate data).introEnd = 0 ∧
      (detectBoundaries sampleRate data).outroStart = (data.length : ℚ) / sampleRate) := by
  simp only [detectBoundaries]
  split
  case isTrue h => exact ⟨fun _ => ⟨h.2.1, h.1, h.2.2⟩, fun hf => by simp at hf⟩
  case isFalse h => exact ⟨fun ht => by simp at ht, fun _ => ⟨rfl, rfl⟩⟩

/-- Witness for `boundaries_invariant`: the undetected branch at sample rate
8000 on a one-sample signal. -/
theorem boundaries_invariant_witness :
    (detectBoundaries 8000 [1]).introEnd = 0 ∧
    (detectBoundaries 8000 [1]).outroStart = (([1] : List ℚ).length : ℚ) / 8000 :=
  (boundaries_invariant 8000 [1]).2 (by
    norm_num [detectBoundaries, chunkMeanSquares, sortedResults, firstAboveFrom,
      firstAbove, lastAbove, List.range_succ, List.insertionSort, List.orderedInsert])

/-- Claim C6: the time-stretcher is the identity for negligible rate changes —
for every window, buffer and rate factor with `|rate − 1| < 0.01` (in
particular rate 1.0) the input buffer is returned unchanged, sample for
sample. -/
theorem timestretch_noop_small_rate (w : ℕ → ℕ → ℚ) (b : AudioBufferM) (rate : ℚ)
    (h : |rate - 1| < 1/100) : timeStretch w b rate = b := by
  unfold timeStretch
  rw [if_pos h]

/-- A small concrete stereo buffer. -/
def sampleBuffer : AudioBufferM := ⟨2, 44100, 3, [[1, 0, -(1/2)], [0, 1/4, 1]]⟩

/-- Witness for `timestretch_noop_small_rate` at rate 1. -/
theorem timestretch_noop_small_rate_witness :
    timeStretch (fun _ _ => 0) sampleBuffer 1 = sampleBuffer :=
  timestretch_noop_small_rate (fun _ _ => 0) sampleBuffer 1 (by norm_num)

/-- Claim C3: for every buffer and every requested export format the encoder's
byte payload is identical — the canonical 44-byte RIFF/WAVE header
(audioFormat 1, bitsPerSample 16) followed by interleaved little-endian PCM16
samples — and the format option changes only the declared media type label. -/
theorem encoder_bytes_format_independent (b : AudioBufferM) (format : ExportFormat) :
    (audioBufferToLossless b format).1 = (audioBufferToLossless b ExportFormat.wav_lossless).1 ∧
    (audioBufferToLossless b format).1 =
      canonicalWavHeader b.numberOfChannels b.sampleRate b.numFrames ++ interleavedPcm16 b ∧
    (canonicalWavHeader b.numberOfChannels b.sampleRate b.numFrames).length = 44 ∧
    (audioBufferToLossless b format).2 =
      (if format = ExportFormat.flac_lossless then "audio/flac" else "audio/wav") := by
  refine ⟨rfl, ?_, ?_, rfl⟩
  · have e1 : b.numFrames * (b.numberOfChannels * 2) = b.numFrames * b.numberOfChannels * 2 := by
      ring
    have h1 : b.numFrames * b.numberOfChannels * 2 + 44 - 8 =
        36 + b.numFrames * (b.numberOfChannels * 2) := by
      rw [e1]; omega
    have h2 : b.numFrames * b.numberOfChannels * 2 + 44 - 40 - 4 =
        b.numFrames * (b.numberOfChannels * 2) := by
      rw [e1]; omega
    have h3 : b.sampleRate * 2 * b.numberOfChannels = b.sampleRate * (b.numberOfChannels * 2) := by
      ring
    simp only [audioBufferToLossless, canonicalWavHeader, interleavedPcm16, h1, h2, h3]
  · simp [canonicalWavHeader, le32, le16]

/-- With the crossfade equal to the buffer duration the placement never
advances: from a nonpositive placement the loop of src 330–362 never exits,
whatever the fuel. -/
theorem renderLoop_none_of_nonpos : ∀ (n : ℕ) (cur : ℚ), cur ≤ 0 →
    renderLoopPlacements 5 5 60 n cur = none
  | 0, _, _ => rfl
  | n + 1, cur, h => by
    unfold renderLoopPlacements
    rw [if_pos (by linarith : cur < 60),
      renderLoop_none_of_nonpos n (cur + 5 - 5) (by linarith)]
    rfl

/-- Claim C1: the render entrypoint performs no crossfade validation.  With a
5 s foundation buffer, a 5 s crossfade (violating `crossfadeSeconds <` every
looped segment's duration) and a 60 s target, `process` reaches
`renderLoopingTrack` and its loop never terminates: the placement time stays
at 0 forever, every scheduled gain/start time is nonnegative so no host call
throws, and no output and no error are produced — instead of failing fast
with a descriptive error before rendering.  (For a crossfade strictly larger
than the buffer duration the loop instead aborts on the first iteration with a
host `RangeError` from the negative `fadeOutStart` of src 345 — also not the
claimed pre-render validation.) -/
theorem crossfade_unvalidated_nontermination (n : ℕ) :
    renderLoopPlacements 5 5 60 n 0 = none :=
  renderLoop_none_of_nonpos n 0 le_rfl

/-- Given enough remaining headroom `k` steps cover, the foundation loop
completes and its placements step by `dur − cf` below `totalDur`. -/
theorem renderLoop_terminates_aux (dur cf totalDur : ℚ) :
    ∀ (k : ℕ) (cur : ℚ), totalDur ≤ cur + k * (dur - cf) →
    ∃ ps, renderLoopPlacements dur cf totalDur (k + 1) cur = some ps ∧
      ps.Chain' (fun a b => b = a + (dur - cf)) ∧
      (∀ x ∈ ps, x < totalDur) ∧ (ps = [] ∨ ps.head? = some cur) := by
  intro k
  induction k with
  | zero =>
    intro cur hcur
    refine ⟨[], ?_, List.chain'_nil, by simp, Or.inl rfl⟩
    unfold renderLoopPlacements
    rw [if_neg (by push_cast at hcur; linarith)]
  | succ k ih =>
    intro cur hcur
    by_cases hc : cur < totalDur
    · have hrec : totalDur ≤ (cur + dur - cf) + k * (dur - cf) := by
        push_cast at hcur ⊢
        ring_nf at hcur ⊢
        linarith
      obtain ⟨ps, hps, hchain, hlt, hhead⟩ := ih (cur + dur - cf) hrec
      refine ⟨cur :: ps, ?_, ?_, ?_, Or.inr rfl⟩
      · unfold renderLoopPlacements
        rw [if_pos hc, hps]
        rfl
      · refine List.chain'_cons'.mpr ⟨?_, hchain⟩
        intro y hy
        rcases hhead with hnil | hhd
        · subst hnil; simp at hy
        · rw [hhd] at hy
          simp at hy
          linarith [hy]
      · intro x hx
        rcases List.mem_cons.mp hx with rfl | hx'
        · exact hc
        · exact hlt x hx'
    · refine ⟨[], ?_, List.chain'_nil, by simp, Or.inl rfl⟩
      unfold renderLoopPlacements
      rw [if_neg hc]

/-- Claim C7: when `0 ≤ crossfade < duration` the foundation-track loop
terminates: some fuel completes it, consecutive placements advance by exactly
`duration − crossfade` starting from 0, and the loop only places copies while
the placement is below the target duration. -/
theorem foundation_loop_terminates (dur cf totalDur : ℚ) (_hcf : 0 ≤ cf) (hlt : cf < dur) :
    ∃ n ps, renderLoopPlacements dur cf totalDur n 0 = some ps ∧
      ps.Chain' (fun a b => b = a + (dur - cf)) ∧
      (∀ x ∈ ps, x < totalDur) ∧ (ps = [] ∨ ps.head? = some 0) := by
  have hδ : 0 < dur - cf := by linarith [hlt]
  obtain ⟨k, hk⟩ := exists_nat_ge (totalDur / (dur - cf))
  have hcov : totalDur ≤ 0 + k * (dur - cf) := by
    rw [zero_add]
    calc totalDur = totalDur / (dur - cf) * (dur - cf) :=
          (div_mul_cancel₀ totalDur (ne_of_gt hδ)).symm
      _ ≤ k * (dur - cf) := mul_le_mul_of_nonneg_right hk (le_of_lt hδ)
  obtain ⟨ps, h⟩ := renderLoop_terminates_aux dur cf totalDur k 0 hcov
  exact ⟨k + 1, ps, h⟩

/-- Witness for `foundation_loop_terminates`: duration 2, crossfade 1,
target 3. -/
theorem foundation_loop_terminates_witness :
    ∃ n ps, renderLoopPlacements 2 1 3 n 0 = some ps ∧
      ps.Chain' (fun a b => b = a + (2 - 1)) ∧
      (∀ x ∈ ps, x < 3) ∧ (ps = [] ∨ ps.head? = some 0) :=
  foundation_loop_terminates 2 1 3 (by norm_num) (by norm_num)

/-- The forward scan returns the sentinel or a genuine index. -/
theorem firstAboveFrom_cases (thr : ℚ) :
    ∀ (l : List ℚ) (i : ℕ), firstAboveFrom thr l i = -1 ∨ 0 ≤ firstAboveFrom thr l i
  | [], _ => Or.inl rfl
  | v :: rest, i => by
    unfold firstAboveFrom
    split
    · exact Or.inr (Int.ofNat_nonneg i)
    · exact firstAboveFrom_cases thr rest (i + 1)

/-- When the forward scan returns the sentinel, nothing exceeds the
threshold. -/
theorem firstAboveFrom_sentinel (thr : ℚ) :
    ∀ (l : List ℚ) (i : ℕ), firstAboveFrom thr l i = -1 → ∀ v ∈ l, ¬ thr < v
  | [], _, _ => by simp
  | v :: rest, i, h => by
    unfold firstAboveFrom at h
    split at h
    · exact absurd h (by omega)
    · intro u hu
      rcases List.mem_cons.mp hu with rfl | hu'
      · assumption
      · exact firstAboveFrom_sentinel thr rest (i + 1) h u hu'

/-- When nothing exceeds the threshold, the backward scan returns the
sentinel. -/
theorem lastAbove_sentinel :
    ∀ (l : List ℚ) (thr : ℚ), (∀ v ∈ l, ¬ thr < v) → lastAbove l thr = -1
  | [], _, _ => rfl
  | v :: rest, thr, h => by
    have hrest := lastAbove_sentinel rest thr fun u hu => h u (List.mem_cons_of_mem v hu)
    have hv := h v (List.mem_cons_self v rest)
    simp [lastAbove, hrest, hv]

/-- The backward scan's index stays below the list length. -/
theorem lastAbove_lt_length : ∀ (l : List ℚ) (thr : ℚ), lastAbove l thr < (l.length : ℤ)
  | [], _ => by simp [lastAbove]
  | v :: rest, thr => by
    unfold lastAbove
    have hrest := lastAbove_lt_length rest thr
    simp only [List.length_cons]
    split
    · split <;> push_cast <;> omega
    · push_cast
      omega

/-- Core contradiction for claim C10: with the backward index at most 198
(so `outroStart ≤ 9.8`) and the forward index either the sentinel or
nonnegative (so `introEnd ≥ min duration 10`), the detection conjunction of
src 231 cannot hold. -/
theorem detected_contradiction (duration : ℚ) (f o : ℤ)
    (hf : f = -1 ∨ 0 ≤ f) (himpl : f = -1 → o = -1) (ho : (o : ℚ) ≤ 198) :
    ¬ (min duration ((f : ℚ) / 10 + 10) < max 0 ((o : ℚ) / 10 - 10) ∧
      0 < min duration ((f : ℚ) / 10 + 10) ∧
      max 0 ((o : ℚ) / 10 - 10) < duration) := by
  rintro ⟨h1, h2, h3⟩
  have hmax : max 0 ((o : ℚ) / 10 - 10) ≤ 49/5 := by
    apply max_le <;> linarith
  rcases hf with hf | hf
  · have ho' : o = -1 := himpl hf
    rw [hf, ho'] at h1
    rw [hf] at h2
    push_cast at h1 h2
    have hm0 : max (0 : ℚ) ((-1) / 10 - 10) = 0 := by norm_num
    rw [hm0] at h1
    linarith
  · have hf' : (0 : ℚ) ≤ (f : ℚ) := by exact_mod_cast hf
    have hintro : min duration 10 ≤ min duration ((f : ℚ) / 10 + 10) :=
      min_le_min le_rfl (by linarith)
    rcases min_cases duration (10 : ℚ) with ⟨hm, _⟩ | ⟨hm, _⟩ <;>
      rw [hm] at hintro <;> linarith

/-- Claim C10: for every signal with sample rate at least 8000 Hz and duration
at most 19.8 s, the boundary detector reports `detected = false`: the
10-second safety margins force `introEnd ≥ min duration 10` while the backward
chunk index (at most 198 for such signals) caps `outroStart` at 9.8 s. -/
theorem short_signal_never_detected (sampleRate : ℕ) (data : List ℚ)
    (hsr : 8000 ≤ sampleRate) (hdur : (data.length : ℚ) / (sampleRate : ℚ) ≤ 99/5) :
    (detectBoundaries sampleRate data).detected = false := by
  simp only [detectBoundaries]
  rw [if_neg]
  apply detected_contradiction
  · exact firstAboveFrom_cases _ _ 0
  · intro hfirst
    exact lastAbove_sentinel _ _ (firstAboveFrom_sentinel _ _ 0 hfirst)
  · have hms : (chunkMeanSquares data (sampleRate / 10)).length =
        (data.length + sampleRate / 10 - 1) / (sampleRate / 10) := by
      simp [chunkMeanSquares]
    have hlen : data.length * 5 ≤ 99 * sampleRate := by
      have hsr0 : (0 : ℚ) < (sampleRate : ℚ) := by
        exact_mod_cast lt_of_lt_of_le (by norm_num : (0:ℕ) < 8000) hsr
      rw [div_le_div_iff₀ hsr0 (by norm_num : (0:ℚ) < 5)] at hdur
      exact_mod_cast hdur
    have hq : (data.length + sampleRate / 10 - 1) / (sampleRate / 10) < 200 := by
      rw [Nat.div_lt_iff_lt_mul (by omega : 0 < sampleRate / 10)]
      omega
    have hA := lastAbove_lt_length (chunkMeanSquares data (sampleRate / 10))
      ((sortedResults (chunkMeanSquares data (sampleRate / 10))).getD
        (3 * (sortedResults (chunkMeanSquares data (sampleRate / 10))).length / 5) 0)
    rw [hms] at hA
    have hoZ : lastAbove (chunkMeanSquares data (sampleRate / 10))
        ((sortedResults (chunkMeanSquares data (sampleRate / 10))).getD
          (3 * (sortedResults (chunkMeanSquares data (sampleRate / 10))).length / 5) 0) ≤ 198 := by
      omega
    exact_mod_cast hoZ

/-- Witness for `short_signal_never_detected`: a one-sample signal at
8000 Hz. -/
theorem short_signal_never_detected_witness :
    (detectBoundaries 8000 [1]).detected = false :=
  short_signal_never_detected 8000 [1] (by norm_num) (by norm_num)

/-- One-decimal rounding keeps a value above 5 at or above 5. -/
theorem round1_ge_five {q : ℚ} (h : 5 < q) : 5 ≤ round1 q := by
  unfold round1 jsRound
  have h50 : (50 : ℤ) ≤ ⌊q * 10 + 1/2⌋ := Int.le_floor.mpr (by push_cast; linarith)
  have h50q : (50 : ℚ) ≤ (⌊q * 10 + 1/2⌋ : ℚ) := by exact_mod_cast h50
  linarith

/-- Claim C5 counterexample: the file name `3hz` makes the analysis return the
frequency 3, which is not above 5 — the filename hint is returned unchecked. -/
theorem frequency_hint_below_threshold :
    combinedFrequency "3hz" 44100 [] = some 3 ∧ ¬ (5 < (3 : ℚ)) := by
  have hscan : extractFrequency "3hz" = some (parsedValue ['3'] []) := rfl
  have hd1 : digitsToNat ['3'] = 3 := rfl
  have hd2 : digitsToNat ([] : List Char) = 0 := rfl
  have hval : parsedValue ['3'] [] = 3 := by
    simp [parsedValue, hd1, hd2]
  constructor
  · simp [combinedFrequency, hscan, hval]
  · norm_num

/-- Claim C5 (amended): the frequency analysis yields `null`, or a nonzero
filename-hint value returned as parsed (possibly ≤ 5), or a spectral value
that exceeded 5 before one-decimal rounding and is hence ≥ 5 after it. -/
theorem frequency_result_cases (name : String) (sampleRate : ℕ) (freqData : List ℚ) :
    combinedFrequency name sampleRate freqData = none ∨
    (∃ v, extractFrequency name = some v ∧ v ≠ 0 ∧
      combinedFrequency name sampleRate freqData = some v) ∨
    (∃ v, combinedFrequency name sampleRate freqData = some v ∧ 5 ≤ v) := by
  have hdet : detectDominantFrequency sampleRate freqData = none ∨
      ∃ v, detectDominantFrequency sampleRate freqData = some v ∧ 5 ≤ v := by
    simp only [detectDominantFrequency]
    split
    case isTrue h => exact Or.inr ⟨_, rfl, round1_ge_five h⟩
    case isFalse h => exact Or.inl rfl
  unfold combinedFrequency
  cases hx : extractFrequency name with
  | none =>
    rcases hdet with h | ⟨v, hv, h5⟩
    · exact Or.inl h
    · exact Or.inr (Or.inr ⟨v, hv, h5⟩)
  | some v =>
    dsimp only
    by_cases hv0 : v = 0
    · rw [if_pos hv0]
      rcases hdet with h | ⟨u, hu, h5⟩
      · exact Or.inl h
      · exact Or.inr (Or.inr ⟨u, hu, h5⟩)
    · rw [if_neg hv0]
      exact Or.inr (Or.inl ⟨v, rfl, hv0, rfl⟩)

/-- A 3.2 s signal at 10 Hz with unit spikes at samples 0, 1, 5, 10 and 31:
with hop 0.1 s its peaks sit at 0, 0.1, 0.5, 1 and 3.1 s, so the kept
inter-peak differences are 0.4 and 0.5 s. -/
def clickSignal : List ℚ :=
  [1, 1, 0, 0, 0, 1, 0, 0, 0, 0, 1, 0, 0, 0, 0, 0, 0, 0, 0, 0, 0, 0, 0, 0, 0,
    0, 0, 0, 0, 0, 0, 1]

/-- Claim C8 counterexample: on `clickSignal` with hop 0.1 s the pass records
5 peaks and the kept differences `[0.4, 0.5]`; the source selects index
`⌊2/2⌋ = 1` of the sorted differences and returns `60/0.5 = 120`, while the
claimed lower median (the smaller middle value 0.4) would give `60/0.4 =
150`. -/
theorem peak_pass_lower_median_counterexample :
    detectBpmByPeakClustering clickSignal 10 (1/10) = 120 ∧
    60 / lowerMedian (keptDiffs (peakTimes clickSignal 10 1 1)) = 150 ∧
    (120 : ℚ) ≠ 150 := by
  have h1 : (⌊((10:ℕ):ℚ) * (1/10)⌋).toNat = 1 := by norm_num
  have h2 : max 1 (clickSignal.length / 3000) = 1 := by norm_num [clickSignal]
  have hpeaks' : peakTimes clickSignal 10 1 1 = [0, 1/10, 1/2, 1, 31/10] := by
    norm_num [peakTimes, blockMax, clickSignal, List.range_succ]
  have hpeaks : peakTimes clickSignal 10 ((⌊((10:ℕ):ℚ) * (1/10)⌋).toNat)
      (max 1 (clickSignal.length / 3000)) = [0, 1/10, 1/2, 1, 31/10] := by
    rw [h1, h2]
    exact hpeaks'
  have hkept : keptDiffs [0, 1/10, 1/2, 1, (31:ℚ)/10] = [2/5, 1/2] := by
    norm_num [keptDiffs]
  refine ⟨?_, ?_, by norm_num⟩
  · have hmed : upperMedian [(2:ℚ)/5, 1/2] = 1/2 := by
      norm_num [upperMedian, sortedResults, List.insertionSort, List.orderedInsert]
    simp only [detectBpmByPeakClustering, hpeaks, hkept, hmed]
    norm_num
  · rw [hpeaks', hkept]
    norm_num [lowerMedian, sortedResults, List.insertionSort, List.orderedInsert]

/-- Claim C8 (amended): in fast mode, when a pass records at least 5 peaks and
keeps at least one inter-peak difference, the per-pass tempo equals 60 divided
by the element at index `⌊count/2⌋` of the numerically sorted kept differences
— the upper median for even counts (for odd counts the middle value). -/
theorem peak_pass_tempo_upper_median (data : List ℚ) (sampleRate : ℕ) (hopSec : ℚ)
    (hpeaks : ¬ (peakTimes data sampleRate ((⌊(sampleRate : ℚ) * hopSec⌋).toNat)
      (max 1 (data.length / 3000))).length < 5)
    (hdiffs : ¬ (keptDiffs (peakTimes data sampleRate
      ((⌊(sampleRate : ℚ) * hopSec⌋).toNat) (max 1 (data.length / 3000)))).length = 0) :
    detectBpmByPeakClustering data sampleRate hopSec =
      60 / upperMedian (keptDiffs (peakTimes data sampleRate
        ((⌊(sampleRate : ℚ) * hopSec⌋).toNat) (max 1 (data.length / 3000)))) := by
  simp only [detectBpmByPeakClustering]
  rw [if_neg hpeaks, if_neg hdiffs]

/-- Witness for `peak_pass_tempo_upper_median` on `clickSignal`. -/
theorem peak_pass_tempo_upper_median_witness :
    detectBpmByPeakClustering clickSignal 10 (1/10) =
      60 / upperMedian (keptDiffs (peakTimes clickSignal 10
        ((⌊((10:ℕ) : ℚ) * (1/10)⌋).toNat) (max 1 (clickSignal.length / 3000)))) := by
  have h1 : (⌊((10:ℕ):ℚ) * (1/10)⌋).toNat = 1 := by norm_num
  have h2 : max 1 (clickSignal.length / 3000) = 1 := by norm_num [clickSignal]
  have hpeaks : peakTimes clickSignal 10 ((⌊((10:ℕ):ℚ) * (1/10)⌋).toNat)
      (max 1 (clickSignal.length / 3000)) = [0, 1/10, 1/2, 1, 31/10] := by
    rw [h1, h2]
    norm_num [peakTimes, blockMax, clickSignal, List.range_succ]
  exact peak_pass_tempo_upper_median clickSignal 10 (1/10)
    (by rw [hpeaks]; norm_num)
    (by rw [hpeaks]; norm_num [keptDiffs])

/-- Claim C9 counterexample: a signal of exactly 600 s (6000 zero samples at
10 Hz) gets no tempo estimate — the gate of src 20 is the strict
`duration < 600`, so "up to and including 600 seconds" fails at 600. -/
theorem tempo_skip_at_600_counterexample :
    (decodeAnalysis "a" 10 (List.replicate 6000 0) DetectionMode.fast []).bpmInfo = none ∧
    ((List.replicate 6000 (0:ℚ)).length : ℚ) / ((10:ℕ) : ℚ) = 600 := by
  constructor
  · simp only [decodeAnalysis]
    rw [if_neg (by norm_num [List.length_replicate])]
  · norm_num [List.length_replicate]

/-- Claim C9 (amended): the analysis entrypoint computes a tempo estimate
exactly when the duration is strictly below 600 s (a signal of exactly 600 s
is already skipped), and the frequency analysis runs in either case. -/
theorem tempo_gate_strict (name : String) (sampleRate : ℕ) (data : List ℚ)
    (mode : DetectionMode) (freqData : List ℚ) :
    ((decodeAnalysis name sampleRate data mode freqData).bpmInfo.isSome = true ↔
      (data.length : ℚ) / (sampleRate : ℚ) < 600) ∧
    (decodeAnalysis name sampleRate data mode freqData).bpmInfo =
      (if (data.length : ℚ) / (sampleRate : ℚ) < 600
        then some (analyzeBpm data sampleRate mode) else none) ∧
    (decodeAnalysis name sampleRate data mode freqData).frequency =
      combinedFrequency name sampleRate freqData := by
  refine ⟨?_, rfl, rfl⟩
  simp only [decodeAnalysis]
  split
  case isTrue h => simpa using h
  case isFalse h => simpa using h

theorem halveLoop_le (x : ℚ) : halveLoop x ≤ 200 := by
  induction x using halveLoop.induct with
  | case1 x h ih => rw [halveLoop, dif_pos h]; exact ih
  | case2 x h => rw [halveLoop, dif_neg h]; linarith

theorem halveLoop_pos (x : ℚ) : 0 < x → 0 < halveLoop x := by
  induction x using halveLoop.induct with
  | case1 x h ih => intro hx; rw [halveLoop, dif_pos h]; exact ih (by linarith)
  | case2 x h => intro hx; rw [halveLoop, dif_neg h]; exact hx

theorem doubleLoop_bounds (x : ℚ) : 0 < x → x ≤ 200 → 60 ≤ doubleLoop x ∧ doubleLoop x ≤ 200 := by
  induction x using doubleLoop.induct with
  | case1 x h ih =>
    intro hx hle
    rw [doubleLoop, dif_pos h]
    exact ih (by linarith [h.1]) (by linarith [h.2])
  | case2 x h =>
    intro hx hle
    rw [doubleLoop, dif_neg h]
    refine ⟨?_, hle⟩
    by_contra hlt
    push_neg at hlt
    exact h ⟨hx, by linarith⟩

theorem halveIter_succ (n : ℕ) (x : ℚ) :
    halveIter (n + 1) x = if 200 < x then halveIter n (x / 2) else some x := rfl

theorem doubleIter_succ (n : ℕ) (x : ℚ) :
    doubleIter (n + 1) x = if x < 60 then doubleIter n (x * 2) else some x := rfl

theorem halveIter_mono : ∀ {n m : ℕ} {x r : ℚ}, n ≤ m →
    halveIter n x = some r → halveIter m x = some r := by
  intro n
  induction n with
  | zero => intro m x r _ h; simp [halveIter] at h
  | succ n ih =>
    intro m x r hnm h
    obtain ⟨m2, rfl⟩ : ∃ m2, m = m2 + 1 := ⟨m - 1, by omega⟩
    rw [halveIter_succ] at h ⊢
    split at h
    case isTrue hc => rw [if_pos hc]; exact ih (by omega) h
    case isFalse hc => rw [if_neg hc]; exact h

theorem doubleIter_mono : ∀ {n m : ℕ} {x r : ℚ}, n ≤ m →
    doubleIter n x = some r → doubleIter m x = some r := by
  intro n
  induction n with
  | zero => intro m x r _ h; simp [doubleIter] at h
  | succ n ih =>
    intro m x r hnm h
    obtain ⟨m2, rfl⟩ : ∃ m2, m = m2 + 1 := ⟨m - 1, by omega⟩
    rw [doubleIter_succ] at h ⊢
    split at h
    case isTrue hc => rw [if_pos hc]; exact ih (by omega) h
    case isFalse hc => rw [if_neg hc]; exact h

theorem halveIter_adequate : ∀ (k : ℕ) (x : ℚ), x ≤ 200 * 2 ^ k →
    halveIter (k + 1) x = some (halveLoop x) := by
  intro k
  induction k with
  | zero =>
    intro x hx
    simp only [pow_zero, mul_one] at hx
    rw [halveIter_succ, if_neg (by linarith)]
    have hfix : halveLoop x = x := by rw [halveLoop]; exact dif_neg (by linarith)
    rw [hfix]
  | succ k ih =>
    intro x hx
    by_cases hc : 200 < x
    · have hx2 : x / 2 ≤ 200 * 2 ^ k := by
        rw [pow_succ] at hx
        linarith
      rw [halveIter_succ, if_pos hc, ih (x / 2) hx2]
      have hstep : halveLoop x = halveLoop (x / 2) := by
        conv_lhs => rw [halveLoop]
        rw [dif_pos hc]
      rw [hstep]
    · rw [halveIter_succ, if_neg hc]
      have hfix : halveLoop x = x := by rw [halveLoop]; exact dif_neg hc
      rw [hfix]

theorem doubleIter_adequate : ∀ (k : ℕ) (x : ℚ), 0 < x → 60 ≤ x * 2 ^ k →
    doubleIter (k + 1) x = some (doubleLoop x) := by
  intro k
  induction k with
  | zero =>
    intro x hx h60
    simp only [pow_zero, mul_one] at h60
    rw [doubleIter_succ, if_neg (by linarith)]
    have hfix : doubleLoop x = x := by
      rw [doubleLoop]; exact dif_neg (by rintro ⟨_, hlt⟩; linarith)
    rw [hfix]
  | succ k ih =>
    intro x hx h60
    by_cases hc : x < 60
    · have hrec : 60 ≤ x * 2 * 2 ^ k := by
        have e : x * 2 * 2 ^ k = x * 2 ^ (k + 1) := by ring
        rw [e]
        exact h60
      rw [doubleIter_succ, if_pos hc, ih (x * 2) (by linarith) hrec]
      have hstep : doubleLoop x = doubleLoop (x * 2) := by
        conv_lhs => rw [doubleLoop]
        rw [dif_pos ⟨hx, hc⟩]
      rw [hstep]
    · rw [doubleIter_succ, if_neg hc]
      have hfix : doubleLoop x = x := by
        rw [doubleLoop]; exact dif_neg (by rintro ⟨_, hlt⟩; exact hc hlt)
      rw [hfix]

theorem exists_halve_bound (x : ℚ) : ∃ k : ℕ, x ≤ 200 * 2 ^ k := by
  obtain ⟨k, hk⟩ := pow_unbounded_of_one_lt x (by norm_num : (1:ℚ) < 2)
  have h2k : (0:ℚ) < 2 ^ k := by positivity
  exact ⟨k, by linarith⟩

theorem exists_double_bound (x : ℚ) (hx : 0 < x) : ∃ k : ℕ, 60 ≤ x * 2 ^ k := by
  obtain ⟨k, hk⟩ := pow_unbounded_of_one_lt (60 / x) (by norm_num : (1:ℚ) < 2)
  rw [div_lt_iff₀ hx] at hk
  exact ⟨k, by nlinarith⟩

theorem octaveIter_completes (x : ℚ) (hx : 0 < x) :
    ∃ n, octaveIter n x = some (octaveCorrect x) ∧
      60 ≤ octaveCorrect x ∧ octaveCorrect x ≤ 200 := by
  obtain ⟨k1, hk1⟩ := exists_halve_bound x
  obtain ⟨k2, hk2⟩ := exists_double_bound (halveLoop x) (halveLoop_pos x hx)
  have hbounds := doubleLoop_bounds (halveLoop x) (halveLoop_pos x hx) (halveLoop_le x)
  refine ⟨max (k1 + 1) (k2 + 1), ?_, hbounds.1, hbounds.2⟩
  unfold octaveIter
  rw [halveIter_mono (le_max_left _ _) (halveIter_adequate k1 x hk1)]
  exact doubleIter_mono (le_max_right _ _)
    (doubleIter_adequate k2 (halveLoop x) (halveLoop_pos x hx) hk2)

theorem sortedResults_perm (l : List ℚ) : List.Perm (sortedResults l) l :=
  List.perm_insertionSort _ l

theorem sortedResults_sorted (l : List ℚ) : (sortedResults l).Sorted (· ≤ ·) :=
  List.sorted_insertionSort _ l

theorem q1_le_q3 (l : List ℚ) (hl : l ≠ []) : q1 l ≤ q3 l := by
  unfold q1 q3
  have hlen : (sortedResults l).length = l.length := (sortedResults_perm l).length_eq
  have hn : 0 < l.length := List.length_pos.mpr hl
  have hi1 : l.length / 4 < (sortedResults l).length := by rw [hlen]; omega
  have hi2 : 3 * l.length / 4 < (sortedResults l).length := by rw [hlen]; omega
  rw [List.getD_eq_getElem _ _ hi1, List.getD_eq_getElem _ _ hi2]
  have hle : (⟨l.length / 4, hi1⟩ : Fin (sortedResults l).length) ≤ ⟨3 * l.length / 4, hi2⟩ := by
    simp [Fin.mk_le_mk]
    omega
  simpa using (sortedResults_sorted l).rel_get_of_le hle

theorem filteredPasses_ne_nil (l : List ℚ) (hl : l ≠ []) : filteredPasses l ≠ [] := by
  have hlen : (sortedResults l).length = l.length := (sortedResults_perm l).length_eq
  have hn : 0 < l.length := List.length_pos.mpr hl
  unfold filteredPasses
  split
  · intro h
    rw [h] at hlen
    simp at hlen
    omega
  · intro hempty
    have hi1 : l.length / 4 < (sortedResults l).length := by rw [hlen]; omega
    have hq1mem : q1 l ∈ sortedResults l := by
      unfold q1
      rw [List.getD_eq_getElem _ _ hi1]
      exact List.getElem_mem hi1
    have hq13 := q1_le_q3 l hl
    have hiqr : 0 ≤ iqr l := by unfold iqr; linarith
    have hpred : (fun t => decide (q1 l - 3/2 * iqr l ≤ t) &&
        decide (t ≤ q3 l + 3/2 * iqr l)) (q1 l) = true := by
      simp only [Bool.and_eq_true, decide_eq_true_eq]
      constructor
      · linarith
      · unfold iqr at hiqr ⊢
        linarith
    have hmem : q1 l ∈ (sortedResults l).filter
        (fun t => decide (q1 l - 3/2 * iqr l ≤ t) && decide (t ≤ q3 l + 3/2 * iqr l)) :=
      List.mem_filter.mpr ⟨hq1mem, hpred⟩
    rw [hempty] at hmem
    exact absurd hmem (List.not_mem_nil _)

theorem medianBpm_mem (l : List ℚ) (hl : l ≠ []) : medianBpm l ∈ l := by
  unfold medianBpm
  have hne := filteredPasses_ne_nil l hl
  have hpos : 0 < (filteredPasses l).length := List.length_pos.mpr hne
  have hidx : (filteredPasses l).length / 2 < (filteredPasses l).length := by omega
  rw [List.getD_eq_getElem _ _ hidx]
  have hmem : (filteredPasses l)[(filteredPasses l).length / 2] ∈ filteredPasses l :=
    List.getElem_mem hidx
  have hsub : ∀ y ∈ filteredPasses l, y ∈ l := by
    intro y hy
    have hy2 : y ∈ sortedResults l := by
      unfold filteredPasses at hy
      split at hy
      · exact hy
      · exact (List.mem_filter.mp hy).1
    exact (sortedResults_perm l).mem_iff.mp hy2
  exact hsub _ hmem

/-- Claim C2: octave correction is total — for every positive value the
halve-above-200/double-below-60 loop pair terminates (some fuel completes it)
with a result in [60, 200]; hence for every non-empty list of positive raw
tempo candidates the aggregator's corrected estimate before the final
one-decimal rounding, `octaveCorrect (medianBpm l)`, lies in [60, 200]. -/
theorem octave_correction_total :
    (∀ x : ℚ, 0 < x → ∃ n r, octaveIter n x = some r ∧ 60 ≤ r ∧ r ≤ 200) ∧
    (∀ l : List ℚ, l ≠ [] → (∀ y ∈ l, 0 < y) →
      ∃ n r, octaveIter n (medianBpm l) = some r ∧ 60 ≤ r ∧ r ≤ 200 ∧
        r = octaveCorrect (medianBpm l)) := by
  constructor
  · intro x hx
    obtain ⟨n, h1, h2, h3⟩ := octaveIter_completes x hx
    exact ⟨n, octaveCorrect x, h1, h2, h3⟩
  · intro l hl hpos
    have hx := hpos _ (medianBpm_mem l hl)
    obtain ⟨n, h1, h2, h3⟩ := octaveIter_completes _ hx
    exact ⟨n, octaveCorrect (medianBpm l), h1, h2, h3, rfl⟩

/-- Witness for `octave_correction_total` on the candidate list `[250]`. -/
theorem octave_correction_total_witness :
    ∃ n r, octaveIter n (medianBpm [250]) = some r ∧ 60 ≤ r ∧ r ≤ 200 ∧
      r = octaveCorrect (medianBpm [250]) :=
  octave_correction_total.2 [250] (by simp) (by norm_num)

end TuneScape
